import Mathlib

/-!
Verification development for the polite crawl scheduling subsystem of the
Client-Project repository (src/utils/rate-limiter.js, src/scraper/robots-checker.js,
src/scraper/extractor.js: class Scraper).

JavaScript numbers are modelled as `Int` (all values reached here are integral),
strings as `String`, thrown exceptions as `Except String`, and JS `Map`s as
association lists (insertion order preserved, as for JS `Map`).
-/

/-- Association-list lookup, modelling JS `Map.get` (returns `undefined` as `none`). -/
def lookupAssoc {α : Type} : List (String × α) → String → Option α
  | [], _ => none
  | (k, v) :: rest, key => if k = key then some v else lookupAssoc rest key

/-- Association-list update, modelling JS `Map.set`: updates the existing entry
in place, or appends a new entry (JS `Map` keeps insertion order). -/
def setAssoc {α : Type} : List (String × α) → String → α → List (String × α)
  | [], k, v => [(k, v)]
  | (k', v') :: rest, k, v =>
    if k' = k then (k', v) :: rest else (k', v') :: setAssoc rest k v

/-- Substring test at the head position. -/
def matchHere : List Char → List Char → Bool
  | _, [] => true
  | [], _ :: _ => false
  | c :: cs, d :: ds => c = d && matchHere cs ds

/-- Substring search, modelling JS `String.prototype.includes`. -/
def hasSub (pat : List Char) : List Char → Bool
  | [] => matchHere [] pat
  | c :: rest => matchHere (c :: rest) pat || hasSub pat rest

/-- JS `s.includes(sub)`. -/
def strIncludes (s sub : String) : Bool := hasSub sub.data s.data

namespace RateLimiter

/-- Constructor options of `RateLimiter` (src/utils/rate-limiter.js lines 7-12).
`none` models a missing (`undefined`) option. -/
structure RLOptions where
  concurrency : Option Int := none
  perDomainConcurrency : Option Int := none
  requestDelay : Option Int := none
  maxRetries : Option Int := none
  backoffBase : Option Int := none

/-- JS `x || d` on numbers: `undefined` and `0` are falsy and yield the default. -/
def jsOr (o : Option Int) (d : Int) : Int :=
  match o with
  | none => d
  | some v => if v = 0 then d else v

/-- Configuration stored on a `RateLimiter` instance by its constructor. -/
structure RLConfig where
  globalConcurrency : Int
  perDomainConcurrency : Int
  requestDelay : Int
  maxRetries : Int
  backoffBase : Int
deriving DecidableEq, Repr

/-- The `RateLimiter` constructor (src/utils/rate-limiter.js lines 7-19): each
field is `options.x || default`; no validation is performed and nothing is thrown. -/
def mkRateLimiter (opts : RLOptions) : RLConfig :=
  { globalConcurrency := jsOr opts.concurrency 3
    perDomainConcurrency := jsOr opts.perDomainConcurrency 1
    requestDelay := jsOr opts.requestDelay 2000
    maxRetries := jsOr opts.maxRetries 3
    backoffBase := jsOr opts.backoffBase 2 }

/-- Mutable state of a `RateLimiter` instance (lines 15-18), plus a virtual
clock `now` (advanced by the modelled `sleep` calls) and three write-only
instrumentation logs used to state theorems: `starts` records `(domain, time)`
at every admission (the value written to `lastRequestTime`), `waits` records
every backoff sleep as computed by `calculateBackoff`, and `calls` counts
invocations of the wrapped unit of work `fn`. -/
structure ThrottleState where
  globalActive : Int
  domainActive : List (String × Int)
  lastRequestTime : List (String × Int)
  now : Int
  starts : List (String × Int)
  waits : List Int
  calls : Nat

/-- Fresh `RateLimiter` state (constructor lines 15-18) at clock time `t0`. -/
def initThrottle (t0 : Int) : ThrottleState :=
  { globalActive := 0, domainActive := [], lastRequestTime := [], now := t0
    starts := [], waits := [], calls := 0 }

/-- `this.domainActive.get(domain) || 0` (lines 58, 102). -/
def activeOf (st : ThrottleState) (domain : String) : Int :=
  (lookupAssoc st.domainActive domain).getD 0

/-- `calculateBackoff` (lines 48-50): `requestDelay * backoffBase ** attempt`. -/
def calculateBackoff (cfg : RLConfig) (attempt : Nat) : Int :=
  cfg.requestDelay * cfg.backoffBase ^ attempt

/-- `canRequestDomain` (lines 57-60). -/
def canRequestDomain (cfg : RLConfig) (st : ThrottleState) (domain : String) : Bool :=
  activeOf st domain < cfg.perDomainConcurrency

/-- `enforceDelay` (lines 67-75): if a truthy last-request time exists and the
elapsed time is below `requestDelay`, sleep the remainder (advancing the clock). -/
def enforceDelay (cfg : RLConfig) (st : ThrottleState) (domain : String) : ThrottleState :=
  match lookupAssoc st.lastRequestTime domain with
  | some t =>
    if t ≠ 0 then
      let elapsed := st.now - t
      if elapsed < cfg.requestDelay then
        { st with now := st.now + (cfg.requestDelay - elapsed) }
      else st
    else st
  | none => st

/-- JS `map.get(d) || 1` (line 124): `undefined` and `0` are falsy. -/
def jsGetOr1 (o : Option Int) : Int :=
  match o with
  | none => 1
  | some v => if v = 0 then 1 else v

/-- The `finally` block of `execute` (lines 121-125): decrement the global
counter and set the domain counter to `(get(domain) || 1) - 1`. -/
def releaseST (st : ThrottleState) (domain : String) : ThrottleState :=
  { st with
    globalActive := st.globalActive - 1
    domainActive :=
      setAssoc st.domainActive domain (jsGetOr1 (lookupAssoc st.domainActive domain) - 1) }

/-- First (leftmost) occurrence of three consecutive digits, modelling the
regex `/(\d{3})/` in `shouldRetry` (line 140). -/
def firstThreeDigits : List Char → Option (Char × Char × Char)
  | a :: b :: c :: rest =>
    if a.isDigit && b.isDigit && c.isDigit then some (a, b, c)
    else firstThreeDigits (b :: c :: rest)
  | _ => none

/-- `shouldRetry` (lines 133-147): retry on timeout/reset markers in the error
message, or on a first embedded 3-digit status equal to 429 or at least 500. -/
def shouldRetry (msg : String) : Bool :=
  if strIncludes msg "timeout" then true
  else if strIncludes msg "ECONNRESET" then true
  else if strIncludes msg "ETIMEDOUT" then true
  else
    match firstThreeDigits msg.data with
    | some (a, b, c) =>
      let status : Int := ((a.toNat - 48) * 100 + (b.toNat - 48) * 10 + (c.toNat - 48) : Nat)
      status = 429 || status ≥ 500
    | none => false

/-- The admission block of `execute` (lines 98-103): `await enforceDelay`
(clock advance), the two counter increments, the `lastRequestTime` update to
the current time, and the `starts`/`calls` instrumentation logs. -/
def admitST (cfg : RLConfig) (st : ThrottleState) (domain : String) : ThrottleState :=
  let st1 := enforceDelay cfg st domain
  { st1 with
    globalActive := st1.globalActive + 1
    domainActive := setAssoc st1.domainActive domain (activeOf st1 domain + 1)
    lastRequestTime := setAssoc st1.lastRequestTime domain st1.now
    starts := st1.starts ++ [(domain, st1.now)]
    calls := st1.calls + 1 }

/-- Sequential (single-caller) projection of `execute` (lines 84-126), by
structural recursion on a fuel bound on the retry depth.  One step of the
recursion is one attempt: the two admission `while` loops are modelled as a
guard that, when it fails with no concurrent task left to release a slot,
diverges (`none` — the loop would poll forever); `await enforceDelay` advances
the clock; the counter increments, `lastRequestTime` update and `starts` log
form the admission; `fn` is consulted at the current attempt index.  On a
retryable failure with `attempt < maxRetries` the backoff sleep advances the
clock (`setTimeout` clamps negative delays to 0) and the retry re-runs
`execute` with `attempt + 1`; the `finally` release is sequenced before the
recursive call, which for a single caller is observationally equivalent to the
source order (the recursive call's admission loop polls until the enclosing
`finally` has released the slot).  The fuel branch is unreachable: the retry
guard bounds the recursion depth by `maxRetries + 1` attempts. -/
def executeFuel {α : Type} (cfg : RLConfig) (fn : Nat → Except String α) (domain : String) :
    Nat → ThrottleState → Nat → Option (Except String α × ThrottleState)
  | 0, _, _ => none
  | fuel + 1, st, attempt =>
    if (decide (st.globalActive < cfg.globalConcurrency) && canRequestDomain cfg st domain) then
      let st2 := admitST cfg st domain
      match fn attempt with
      | .ok v => some (.ok v, releaseST st2 domain)
      | .error e =>
        if (decide ((attempt : Int) < cfg.maxRetries) && shouldRetry e) then
          let b := calculateBackoff cfg attempt
          executeFuel cfg fn domain fuel
            { releaseST st2 domain with
              now := st2.now + max b 0
              waits := st2.waits ++ [b] }
            (attempt + 1)
        else some (.error e, releaseST st2 domain)
    else none

/-- `RateLimiter.execute(url, fn, attempt)` (lines 84-126), sequential
projection; the fuel `maxRetries.toNat + 1` bounds the retry recursion depth. -/
def execute {α : Type} (cfg : RLConfig) (fn : Nat → Except String α) (domain : String)
    (st : ThrottleState) (attempt : Nat) : Option (Except String α × ThrottleState) :=
  executeFuel cfg fn domain (cfg.maxRetries.toNat + 1) st attempt

end RateLimiter

namespace RobotsChecker

/-- Result of the modelled HTTP GET performed by axios for a robots.txt URL. -/
inductive FetchResult where
  | resp (status : Nat) (body : String)
  | netErr (msg : String)
deriving DecidableEq, Repr

/-- A crawl-permission group, modelling one `User-agent` group of a parsed
robots.txt: agent tokens (lowercased character lists), ordered allow/deny
rules (`true` = Allow) with their path, and an optional crawl-delay in
seconds.  All text is carried as `List Char` so that every parsing step is a
structurally recursive, kernel-computable function. -/
structure RobotsGroup where
  agents : List (List Char)
  rules : List (Bool × List Char)
  delay : Option Int
deriving DecidableEq, Repr

/-- ASCII lowercasing of one character (robots.txt directives are ASCII). -/
def asciiLower (c : Char) : Char :=
  if 65 ≤ c.toNat && c.toNat ≤ 90 then Char.ofNat (c.toNat + 32) else c

/-- ASCII lowercasing of a character list. -/
def lowerChars (l : List Char) : List Char := l.map asciiLower

/-- Horizontal whitespace trimmed around robots.txt tokens. -/
def isSpaceChar (c : Char) : Bool := c = ' ' || c = '\t' || c = '\r'

/-- Trim whitespace from both ends of a character list. -/
def trimChars (l : List Char) : List Char :=
  ((l.dropWhile isSpaceChar).reverse.dropWhile isSpaceChar).reverse

/-- Split a character list on a separator character. -/
def splitOnChar (sep : Char) : List Char → List (List Char)
  | [] => [[]]
  | c :: rest =>
    let r := splitOnChar sep rest
    if c = sep then [] :: r
    else
      match r with
      | [] => [[c]]
      | h :: t => (c :: h) :: t

/-- Split a line at its first `:` into key and value parts. -/
def splitAtColon : List Char → Option (List Char × List Char)
  | [] => none
  | c :: rest =>
    if c = ':' then some ([], rest)
    else (splitAtColon rest).map (fun p => (c :: p.1, p.2))

/-- Value of a digit run. -/
def digitsValAux : List Char → Nat → Option Nat
  | [], acc => some acc
  | c :: rest, acc =>
    if c.isDigit then digitsValAux rest (acc * 10 + (c.toNat - 48)) else none

/-- Parse a non-empty all-digit token. -/
def digitsVal : List Char → Option Nat
  | [] => none
  | l => digitsValAux l 0

/-- Parse a non-negative integral crawl-delay value. -/
def parseDelayValue (v : List Char) : Option Int := (digitsVal v).map Int.ofNat

/-- Split a robots.txt line (with any `#` comment stripped) into a lowercased
directive key and a trimmed value. -/
def parseLineChars (l : List Char) : Option (List Char × List Char) :=
  match splitAtColon (l.takeWhile (fun c => c ≠ '#')) with
  | none => none
  | some (k, v) => some (lowerChars (trimChars k), trimChars v)

/-- Group the directive lines of a robots.txt body: consecutive `user-agent`
lines open a group; `allow`, `disallow` and `crawl-delay` lines attach to the
current group; directives before any `user-agent` line are ignored. -/
def groupsAux : List (List Char × List Char) → Option RobotsGroup → Bool → List RobotsGroup
  | [], cur, _ =>
    (match cur with | some g => [g] | none => [])
  | (k, v) :: rest, cur, afterAgent =>
    if k = "user-agent".data then
      if afterAgent then
        match cur with
        | some g => groupsAux rest (some { g with agents := g.agents ++ [lowerChars v] }) true
        | none => groupsAux rest (some ⟨[lowerChars v], [], none⟩) true
      else
        (match cur with | some g => [g] | none => []) ++
          groupsAux rest (some ⟨[lowerChars v], [], none⟩) true
    else
      match cur with
      | none => groupsAux rest none false
      | some g =>
        if k = "disallow".data then
          groupsAux rest (some { g with rules := g.rules ++ [(false, v)] }) false
        else if k = "allow".data then
          groupsAux rest (some { g with rules := g.rules ++ [(true, v)] }) false
        else if k = "crawl-delay".data then
          groupsAux rest (some { g with delay := parseDelayValue v }) false
        else groupsAux rest (some g) false

/-- Modelled from the spec: the `robots-parser` npm library (a dependency, not
part of this repository) parses a robots.txt body "into allow/deny rule set
and optional crawl-delay" (spec section 4.1).  An empty body yields no groups. -/
def parseRobotsTxt (txt : String) : List RobotsGroup :=
  groupsAux ((splitOnChar '\n' txt.data).filterMap parseLineChars) none false

/-- The group applicable to a (lowercased) user-agent token: the first group
naming the token, else the first wildcard group. -/
def groupFor (gs : List RobotsGroup) (ua : List Char) : Option RobotsGroup :=
  match gs.find? (fun g => g.agents.contains ua) with
  | some g => some g
  | none => gs.find? (fun g => g.agents.contains ['*'])

/-- A rule path applies to a URL path when it is a nonempty leading part of it. -/
def ruleApplies (path rulePath : List Char) : Bool :=
  decide (rulePath ≠ []) && matchHere path rulePath

/-- Pick the applicable rule of greatest path length (longest-match
precedence, spec section 4.1; an allow rule wins a tie). -/
def bestRule : List (Bool × List Char) → Option (Bool × List Char)
  | [] => none
  | r :: rest =>
    match bestRule rest with
    | none => some r
    | some r2 =>
      if r2.2.length > r.2.length then some r2
      else if r2.2.length = r.2.length && r2.1 && !r.1 then some r2
      else some r

/-- Modelled from the spec: allow/deny decision of the `robots-parser` library
for a URL path, "using standard longest-match precedence between allow and
deny rules for the given URL path and agent token" (spec section 4.1); with no
applicable group or rule the path is allowed. -/
def robotsAllowedPath (gs : List RobotsGroup) (path ua : List Char) : Bool :=
  match groupFor gs ua with
  | none => true
  | some g =>
    match bestRule (g.rules.filter (fun r => ruleApplies path r.2)) with
    | none => true
    | some r => r.1

/-- Crawl-delay (seconds) reported by the modelled library for an agent token. -/
def robotsDelay (gs : List RobotsGroup) (ua : List Char) : Option Int :=
  (groupFor gs ua).bind (fun g => g.delay)

/-- The characters following the first `://`, if any. -/
def afterScheme : List Char → Option (List Char)
  | [] => none
  | ':' :: '/' :: '/' :: rest => some rest
  | _ :: rest => afterScheme rest

/-- The URL path component used for rule matching (text from the first `/`
after the `scheme://host` part). -/
def urlPathChars (u : List Char) : List Char :=
  match afterScheme u with
  | some rest =>
    match rest.dropWhile (fun c => c ≠ '/') with
    | [] => ['/']
    | l => l
  | none => u

/-- A parser object as returned by the `robots-parser` library and stored in
`robotsCache`.  Being external library code, its two consulted methods are
carried as function fields; `isAllowedE` returns `Except` so that a library
method that throws (caught by `RobotsChecker.isAllowed`) is representable. -/
structure RParser where
  sourceUrl : String
  raw : String
  isAllowedE : String → String → Except String Bool
  getCrawlDelayF : String → Option Int

/-- Modelled from the spec: construction `robotsParser(robotsUrl, txt)` of the
external `robots-parser` library, wrapping the modelled parse and matching. -/
def robotsParserFn (url content : String) : RParser :=
  { sourceUrl := url
    raw := content
    isAllowedE := fun u ua =>
      .ok (robotsAllowedPath (parseRobotsTxt content) (urlPathChars u.data) (lowerChars ua.data))
    getCrawlDelayF := fun ua => robotsDelay (parseRobotsTxt content) (lowerChars ua.data) }

/-- External collaborators of the checker: the WHATWG URL parser used by
`getDomain` (`new URL(url)` yields `protocol//hostname`, or throws — `none`),
and the network (what a GET of a given URL returns). -/
structure RCEnv where
  parseOrigin : String → Option String
  fetch : String → FetchResult

/-- `RobotsChecker` instance state (line 13): the `robotsCache` map, plus an
instrumentation counter of underlying robots.txt fetches issued. -/
structure RCState where
  robotsCache : List (String × RParser)
  fetchCount : Nat

/-- `getDomain` (lines 22-30): `protocol//hostname` of the URL, or `null`. -/
def getDomain (env : RCEnv) (url : String) : Option String := env.parseOrigin url

/-- The axios GET of lines 43-49 with `validateStatus: status < 500`: a 5xx
response rejects (throws), as does a network error or timeout. -/
def axiosGetRobots (env : RCEnv) (url : String) : Except String (Nat × String) :=
  match env.fetch url with
  | .resp s body =>
    if s < 500 then .ok (s, body)
    else .error ("Request failed with status code " ++ toString s)
  | .netErr m => .error m

/-- `fetchRobotsTxt` (lines 37-63): body on HTTP 200; empty string (allow all)
on any other accepted status; empty string on any thrown error. -/
def fetchRobotsTxt (env : RCEnv) (domain : String) : String :=
  match axiosGetRobots env (domain ++ "/robots.txt") with
  | .ok (s, body) => if s = 200 then body else ""
  | .error _ => ""

/-- `getRobotsParser` (lines 70-84): return the cached parser, or fetch,
parse, cache and return (counting the underlying fetch). -/
def getRobotsParser (env : RCEnv) (st : RCState) (domain : String) : RParser × RCState :=
  match lookupAssoc st.robotsCache domain with
  | some p => (p, st)
  | none =>
    let robotsTxt := fetchRobotsTxt env domain
    let p := robotsParserFn (domain ++ "/robots.txt") robotsTxt
    (p, { robotsCache := st.robotsCache ++ [(domain, p)], fetchCount := st.fetchCount + 1 })

/-- `isAllowed` (lines 92-114): reject URLs with no derivable domain; consult
the (possibly fetched) parser; any error thrown inside the check yields
`false` (conservative disallow at the public interface). -/
def isAllowed (env : RCEnv) (st : RCState) (url userAgent : String) : Bool × RCState :=
  match getDomain env url with
  | none => (false, st)
  | some domain =>
    let (p, st') := getRobotsParser env st domain
    match p.isAllowedE url userAgent with
    | .ok b => (b, st')
    | .error _ => (false, st')

/-- Result record of `checkUrl`. -/
structure CheckResult where
  allowed : Bool
  reason : String
deriving DecidableEq, Repr

/-- `checkUrl` (lines 122-129). -/
def checkUrl (env : RCEnv) (st : RCState) (url userAgent : String) : CheckResult × RCState :=
  let (allowed, st') := isAllowed env st url userAgent
  ({ allowed := allowed, reason := if allowed then "" else "Disallowed by robots.txt" }, st')

/-- `getCrawlDelay` (lines 137-148): the parser's crawl-delay converted from
seconds to milliseconds via `delay ? delay * 1000 : 0`. -/
def getCrawlDelay (env : RCEnv) (st : RCState) (domain userAgent : String) : Int × RCState :=
  let (p, st') := getRobotsParser env st domain
  match p.getCrawlDelayF userAgent with
  | some d => if d ≠ 0 then (d * 1000, st') else (0, st')
  | none => (0, st')

/-- `clearCache` (lines 153-156). -/
def clearCache (st : RCState) : RCState := { st with robotsCache := [] }

end RobotsChecker

namespace RateLimiter

/-- `RateLimiter.getDomain` (src/utils/rate-limiter.js lines 26-32):
`new URL(url).hostname`, or `"unknown"` when URL parsing throws.  The WHATWG
URL parser is external, hence passed in as `hostOf`. -/
def getDomain (hostOf : String → Option String) (url : String) : String :=
  (hostOf url).getD "unknown"

end RateLimiter

namespace Scraper

/-- Per-URL terminal outcome object built by `Scraper.scrapeUrl`
(src/scraper/extractor.js, class Scraper): `{url, status, reason, data}`.
The extracted-payload object is kept opaque as a string. -/
structure Outcome where
  url : String
  status : String
  reason : String
  data : Option String
deriving DecidableEq, Repr

/-- External collaborators of the scheduler: the robots checker's environment,
the WHATWG URL hostname parser used by the rate limiter, and `runAttempt`,
the inner async unit of work handed to `rateLimiter.execute` (open a page,
navigate, detect anti-bot, extract — lines 462-534).  That function catches
its own page-level errors and returns an outcome object; `Except.error`
models the throws it does not catch (`context.newPage()` or `page.close()`
failing), which feed the rate limiter's retry logic. -/
structure SchedEnv where
  rc : RobotsChecker.RCEnv
  hostOf : String → Option String
  runAttempt : String → Nat → Except String Outcome

/-- Combined mutable state threaded through a scheduling run. -/
structure SchedState where
  rc : RobotsChecker.RCState
  throttle : RateLimiter.ThrottleState

/-- `Scraper.scrapeUrl` (src/scraper/extractor.js lines 445-552): check
robots.txt; on denial return the skipped outcome with the checker's reason,
touching neither the throttle nor the page; otherwise run the unit of work
under `rateLimiter.execute` and turn a propagated error into an error
outcome.  `none` models the divergence of the admission polling loops. -/
def scrapeUrl (cfg : RateLimiter.RLConfig) (env : SchedEnv) (st : SchedState)
    (url : String) : Option (Outcome × SchedState) :=
  let (robotsCheck, rc') := RobotsChecker.checkUrl env.rc st.rc url "*"
  if robotsCheck.allowed then
    match RateLimiter.execute cfg (env.runAttempt url)
        (RateLimiter.getDomain env.hostOf url) st.throttle 0 with
    | some (.ok o, t') => some (o, ⟨rc', t'⟩)
    | some (.error e, t') =>
      some ({ url := url, status := "error", reason := e, data := none }, ⟨rc', t'⟩)
    | none => none
  else
    some ({ url := url, status := "skipped", reason := robotsCheck.reason, data := none },
      ⟨rc', st.throttle⟩)

/-- `Scraper.scrapeUrls` (lines 559-585): process the URLs in input order,
awaiting each, appending each result; the surrounding try/catch (which would
capture a throw of `scrapeUrl` itself) has no modelled trigger, since every
failure path of the model already yields an outcome value. -/
def scrapeUrls (cfg : RateLimiter.RLConfig) (env : SchedEnv) (st : SchedState) :
    List String → Option (List Outcome × SchedState)
  | [] => some ([], st)
  | url :: rest =>
    match scrapeUrl cfg env st url with
    | some (o, st') =>
      match scrapeUrls cfg env st' rest with
      | some (os, st'') => some (o :: os, st'')
      | none => none
    | none => none

end Scraper

namespace RateLimiter

/-!
Concurrent interleaving model of `execute` (lines 84-126) for the counter
invariants.  In the Node.js event loop, the two admission `while` checks run
synchronously, but `await this.enforceDelay(domain)` (line 98) suspends the
task before the counter increments of lines 101-103, so another task may run
its own admission checks in between.  Each constructor below is one of the
synchronous blocks of `execute`:
`pass` = both `while` guards evaluated false (lines 88-95), task suspends at
the `await` of line 98; `enter` = the task resumes and performs the increments
of lines 101-103; `finish` = the unit of work completed and the `finally`
block (lines 121-125) decrements.  Phases not relevant to the counters
(payload, backoff timing) are omitted.
-/

/-- Position of a task inside `execute`. -/
inductive TaskPhase where
  | waiting
  | passed
  | running
  | done
deriving DecidableEq, Repr

/-- One concurrent caller of `execute`, with the domain of its URL. -/
structure ExecTask where
  domain : String
  phase : TaskPhase
deriving DecidableEq, Repr

/-- Shared `RateLimiter` counters plus the task list. -/
structure ConcState where
  tasks : List ExecTask
  globalActive : Int
  domainActive : List (String × Int)
deriving DecidableEq, Repr

/-- One event-loop step of some task inside `execute` (see above). -/
inductive ExecStep (cfg : RLConfig) : ConcState → ConcState → Prop where
  | pass (st : ConcState) (i : Nat) (t : ExecTask)
      (ht : st.tasks.get? i = some t) (hw : t.phase = TaskPhase.waiting)
      (hg : st.globalActive < cfg.globalConcurrency)
      (hd : (lookupAssoc st.domainActive t.domain).getD 0 < cfg.perDomainConcurrency) :
      ExecStep cfg st { st with tasks := st.tasks.set i { t with phase := TaskPhase.passed } }
  | enter (st : ConcState) (i : Nat) (t : ExecTask)
      (ht : st.tasks.get? i = some t) (hp : t.phase = TaskPhase.passed) :
      ExecStep cfg st
        { tasks := st.tasks.set i { t with phase := TaskPhase.running }
          globalActive := st.globalActive + 1
          domainActive := setAssoc st.domainActive t.domain
            ((lookupAssoc st.domainActive t.domain).getD 0 + 1) }
  | finish (st : ConcState) (i : Nat) (t : ExecTask)
      (ht : st.tasks.get? i = some t) (hp : t.phase = TaskPhase.running) :
      ExecStep cfg st
        { tasks := st.tasks.set i { t with phase := TaskPhase.done }
          globalActive := st.globalActive - 1
          domainActive := setAssoc st.domainActive t.domain
            (jsGetOr1 (lookupAssoc st.domainActive t.domain) - 1) }

/-- Initial state of a run: all callers waiting, both counters zero
(constructor lines 15-18). -/
def initConc (domains : List String) : ConcState :=
  { tasks := domains.map (fun d => { domain := d, phase := TaskPhase.waiting })
    globalActive := 0
    domainActive := [] }

end RateLimiter

namespace RateLimiter

/-- A sequential driver calling `execute` once per `(domain, unit-of-work)`
request, threading the limiter state — the shape in which `Scraper.scrapeUrls`
drives the limiter (one awaited `execute` per URL). -/
def runSeq (cfg : RLConfig) :
    List (String × (Nat → Except String String)) → ThrottleState → Option ThrottleState
  | [], st => some st
  | (domain, fn) :: rest, st =>
    match execute cfg fn domain st 0 with
    | some (_, st') => runSeq cfg rest st'
    | none => none

/-- The admission start-times recorded for one domain, in order. -/
def startsOf (domain : String) (l : List (String × Int)) : List Int :=
  (l.filter (fun p => p.1 = domain)).map (fun p => p.2)

/-- Invariant tying the `lastRequestTime` map to the admission log: the clock
is positive and monotone over all recorded starts, per-domain consecutive
starts are at least `requestDelay` apart, and `lastRequestTime` holds exactly
the most recent start of each domain. -/
structure SpacingInv (cfg : RLConfig) (st : ThrottleState) : Prop where
  now_pos : 0 < st.now
  mem_bounds : ∀ domain t, t ∈ startsOf domain st.starts → 0 < t ∧ t ≤ st.now
  spaced : ∀ domain,
    List.Chain' (fun a b => a + cfg.requestDelay ≤ b) (startsOf domain st.starts)
  last_eq : ∀ domain,
    lookupAssoc st.lastRequestTime domain = (startsOf domain st.starts).getLast?

end RateLimiter

/-! ## Theorems -/

theorem lookupAssoc_setAssoc_self {α : Type} (l : List (String × α)) (k : String) (v : α) :
    lookupAssoc (setAssoc l k v) k = some v := by
  induction l with
  | nil => simp [setAssoc, lookupAssoc]
  | cons hd tl ih =>
    obtain ⟨k', v'⟩ := hd
    by_cases h : k' = k <;> simp [setAssoc, lookupAssoc, h, ih]

theorem lookupAssoc_setAssoc_ne {α : Type} (l : List (String × α)) (k k' : String) (v : α)
    (h : k ≠ k') : lookupAssoc (setAssoc l k v) k' = lookupAssoc l k' := by
  induction l with
  | nil => simp [setAssoc, lookupAssoc, h]
  | cons hd tl ih =>
    obtain ⟨k0, v0⟩ := hd
    by_cases h0 : k0 = k
    · subst h0
      simp [setAssoc, lookupAssoc, h]
    · simp only [setAssoc, if_neg h0, lookupAssoc]
      by_cases h1 : k0 = k' <;> simp [h1, ih]

theorem lookupAssoc_append_of_none {α : Type} (l m : List (String × α)) (k : String)
    (h : lookupAssoc l k = none) : lookupAssoc (l ++ m) k = lookupAssoc m k := by
  induction l with
  | nil => simp
  | cons hd tl ih =>
    obtain ⟨k', v'⟩ := hd
    by_cases hk : k' = k
    · simp [lookupAssoc, hk] at h
    · simp only [lookupAssoc, if_neg hk] at h
      simpa [lookupAssoc, hk] using ih h

namespace RateLimiter

theorem enforceDelay_eq (cfg : RLConfig) (st : ThrottleState) (domain : String) :
    enforceDelay cfg st domain = { st with now := (enforceDelay cfg st domain).now } := by
  unfold enforceDelay
  cases lookupAssoc st.lastRequestTime domain with
  | none => rfl
  | some t =>
    by_cases ht : t ≠ 0
    · by_cases hlt : st.now - t < cfg.requestDelay
      · simp only [if_pos ht, if_pos hlt]
      · simp only [if_pos ht, if_neg hlt]
    · simp only [if_neg ht]

theorem now_le_enforceDelay (cfg : RLConfig) (st : ThrottleState) (domain : String) :
    st.now ≤ (enforceDelay cfg st domain).now := by
  unfold enforceDelay
  cases lookupAssoc st.lastRequestTime domain with
  | none => exact le_refl _
  | some t =>
    by_cases ht : t ≠ 0
    · by_cases hlt : st.now - t < cfg.requestDelay
      · simp only [if_pos ht, if_pos hlt]
        omega
      · simp only [if_pos ht, if_neg hlt]
        omega
    · simp only [if_neg ht]
      omega

theorem enforceDelay_spacing (cfg : RLConfig) (st : ThrottleState) (domain : String) (t : Int)
    (h : lookupAssoc st.lastRequestTime domain = some t) (ht : t ≠ 0) :
    t + cfg.requestDelay ≤ (enforceDelay cfg st domain).now := by
  unfold enforceDelay
  rw [h]
  by_cases hlt : st.now - t < cfg.requestDelay
  · simp only [if_pos ht, if_pos hlt]
    omega
  · simp only [if_pos ht, if_neg hlt]
    omega

theorem releaseST_eq (st : ThrottleState) (domain : String) :
    releaseST st domain = { st with
      globalActive := st.globalActive - 1
      domainActive :=
        setAssoc st.domainActive domain (jsGetOr1 (lookupAssoc st.domainActive domain) - 1) } :=
  rfl

theorem admitST_globalActive (cfg : RLConfig) (st : ThrottleState) (domain : String) :
    (admitST cfg st domain).globalActive = st.globalActive + 1 := by
  unfold admitST
  rw [enforceDelay_eq cfg st domain]

theorem admitST_domainActive (cfg : RLConfig) (st : ThrottleState) (domain : String) :
    (admitST cfg st domain).domainActive =
      setAssoc st.domainActive domain (activeOf st domain + 1) := by
  unfold admitST
  rw [enforceDelay_eq cfg st domain]
  rfl

theorem admitST_now (cfg : RLConfig) (st : ThrottleState) (domain : String) :
    (admitST cfg st domain).now = (enforceDelay cfg st domain).now := rfl

theorem admitST_waits (cfg : RLConfig) (st : ThrottleState) (domain : String) :
    (admitST cfg st domain).waits = st.waits := by
  unfold admitST
  rw [enforceDelay_eq cfg st domain]

theorem admitST_calls (cfg : RLConfig) (st : ThrottleState) (domain : String) :
    (admitST cfg st domain).calls = st.calls + 1 := by
  unfold admitST
  rw [enforceDelay_eq cfg st domain]

theorem admitST_starts (cfg : RLConfig) (st : ThrottleState) (domain : String) :
    (admitST cfg st domain).starts =
      st.starts ++ [(domain, (enforceDelay cfg st domain).now)] := by
  unfold admitST
  conv_lhs => rw [enforceDelay_eq cfg st domain]

theorem admitST_lastRequestTime (cfg : RLConfig) (st : ThrottleState) (domain : String) :
    (admitST cfg st domain).lastRequestTime =
      setAssoc st.lastRequestTime domain (enforceDelay cfg st domain).now := by
  unfold admitST
  conv_lhs => rw [enforceDelay_eq cfg st domain]

/-- Counter bookkeeping: on states with non-negative counters, the `finally`
release exactly undoes the admission increments. -/
theorem counts_restore (cfg : RLConfig) (st : ThrottleState) (domain : String)
    (hnn : ∀ d, 0 ≤ activeOf st d) :
    (releaseST (admitST cfg st domain) domain).globalActive = st.globalActive ∧
    (∀ d, activeOf (releaseST (admitST cfg st domain) domain) d = activeOf st d) := by
  constructor
  · rw [releaseST_eq]
    simp [admitST_globalActive]
  · intro d
    have hada := admitST_domainActive cfg st domain
    have h1 : lookupAssoc (admitST cfg st domain).domainActive domain
        = some (activeOf st domain + 1) := by
      rw [hada]
      exact lookupAssoc_setAssoc_self _ _ _
    have h2 : jsGetOr1 (lookupAssoc (admitST cfg st domain).domainActive domain)
        = activeOf st domain + 1 := by
      rw [h1]
      have := hnn domain
      simp only [jsGetOr1]
      omega
    rw [releaseST_eq]
    by_cases hd : domain = d
    · subst hd
      simp only [activeOf]
      rw [lookupAssoc_setAssoc_self, h2]
      simp [activeOf]
    · simp only [activeOf]
      rw [lookupAssoc_setAssoc_ne _ _ _ _ hd, hada, lookupAssoc_setAssoc_ne _ _ _ _ hd]

end RateLimiter

namespace RateLimiter

/-- Totality and counter restoration of the sequential `execute` projection:
when the admission guards hold at entry (and counters are non-negative), the
call returns, and the `finally` blocks leave every counter as it was. -/
theorem executeFuel_total {α : Type} (cfg : RLConfig) (fn : Nat → Except String α)
    (domain : String) :
    ∀ (fuel : Nat) (st : ThrottleState) (attempt : Nat),
      st.globalActive < cfg.globalConcurrency →
      canRequestDomain cfg st domain = true →
      (∀ d, 0 ≤ activeOf st d) →
      cfg.maxRetries.toNat + 1 ≤ fuel + attempt →
      0 < fuel →
      ∃ r st', executeFuel cfg fn domain fuel st attempt = some (r, st') ∧
        st'.globalActive = st.globalActive ∧ (∀ d, activeOf st' d = activeOf st d) ∧
        (∀ v, r = Except.ok v → ∃ a, fn a = Except.ok v) := by
  intro fuel
  induction fuel with
  | zero =>
    intro st attempt _ _ _ _ h0
    omega
  | succ fuel ih =>
    intro st attempt hg hk hnn hfuel _
    have hcond : (decide (st.globalActive < cfg.globalConcurrency)
        && canRequestDomain cfg st domain) = true := by
      simp [hg, hk]
    simp only [executeFuel, hcond, if_true]
    obtain ⟨hres1, hres2⟩ := counts_restore cfg st domain hnn
    cases hfn : fn attempt with
    | ok v =>
      refine ⟨Except.ok v, _, rfl, hres1, hres2, ?_⟩
      intro w hw
      injection hw with hw1
      exact ⟨attempt, by rw [hfn, hw1]⟩
    | error e =>
      cases hr : (decide ((attempt : Int) < cfg.maxRetries) && shouldRetry e) with
      | false =>
        simp only [hr, Bool.false_eq_true, if_false]
        refine ⟨Except.error e, _, rfl, hres1, hres2, ?_⟩
        intro w hw
        exact absurd hw (by simp)
      | true =>
        simp only [hr, if_true]
        have hlt : (attempt : Int) < cfg.maxRetries := by
          have := (Bool.and_eq_true _ _).mp hr
          exact of_decide_eq_true this.1
        have hltn : attempt < cfg.maxRetries.toNat := by omega
        set st3 : ThrottleState :=
          { releaseST (admitST cfg st domain) domain with
            now := (admitST cfg st domain).now + max (calculateBackoff cfg attempt) 0
            waits := (admitST cfg st domain).waits ++ [calculateBackoff cfg attempt] } with hst3
        have hact3 : ∀ d, activeOf st3 d = activeOf st d := fun d => hres2 d
        have hg3 : st3.globalActive < cfg.globalConcurrency := by
          have : st3.globalActive = st.globalActive := hres1
          omega
        have hk3 : canRequestDomain cfg st3 domain = true := by
          have h := hact3 domain
          simp only [canRequestDomain, h]
          simpa [canRequestDomain] using hk
        have hnn3 : ∀ d, 0 ≤ activeOf st3 d := by
          intro d
          rw [hact3 d]
          exact hnn d
        obtain ⟨r, st', heq, hga, hao, hok⟩ := ih st3 (attempt + 1) hg3 hk3 hnn3 (by omega) (by omega)
        refine ⟨r, st', heq, ?_, ?_, hok⟩
        · rw [hga, hres1]
        · intro d
          rw [hao d, hact3 d]

end RateLimiter

namespace RateLimiter

/-- A unit of work that fails retryably on every attempt before `n` and
succeeds at attempt `n ≤ maxRetries`: `execute` succeeds, and the backoff
sleeps are exactly `calculateBackoff` at attempts `attempt, …, n-1`. -/
theorem executeFuel_retry_ok {α : Type} (cfg : RLConfig) (fn : Nat → Except String α)
    (domain : String) (errs : Nat → String) (v : α) (n : Nat)
    (hn : (n : Int) ≤ cfg.maxRetries)
    (hfail : ∀ i, i < n → fn i = Except.error (errs i) ∧ shouldRetry (errs i) = true)
    (hsucc : fn n = Except.ok v) :
    ∀ (fuel : Nat), ∀ (attempt : Nat), ∀ (st : ThrottleState),
      attempt ≤ n →
      n + 1 ≤ fuel + attempt →
      st.globalActive < cfg.globalConcurrency →
      canRequestDomain cfg st domain = true →
      (∀ d, 0 ≤ activeOf st d) →
      ∃ st', executeFuel cfg fn domain fuel st attempt = some (Except.ok v, st') ∧
        st'.waits = st.waits ++
          (List.range' attempt (n - attempt)).map (fun k => calculateBackoff cfg k) := by
  intro fuel
  induction fuel with
  | zero =>
    intro attempt st ha hf _ _ _
    omega
  | succ fuel ih =>
    intro attempt st ha hf hg hk hnn
    have hcond : (decide (st.globalActive < cfg.globalConcurrency)
        && canRequestDomain cfg st domain) = true := by
      simp [hg, hk]
    simp only [executeFuel, hcond, if_true]
    by_cases heq : attempt = n
    · subst heq
      simp only [hsucc]
      refine ⟨_, rfl, ?_⟩
      have : (releaseST (admitST cfg st domain) domain).waits
          = (admitST cfg st domain).waits := rfl
      rw [this, admitST_waits]
      simp
    · have haltn : attempt < n := by omega
      obtain ⟨hfa, hsr⟩ := hfail attempt haltn
      have hlt : (attempt : Int) < cfg.maxRetries := by
        have : (attempt : Int) < (n : Int) := by exact_mod_cast haltn
        omega
      have hr : (decide ((attempt : Int) < cfg.maxRetries) && shouldRetry (errs attempt))
          = true := by simp [hlt, hsr]
      simp only [hfa, hr, if_true]
      obtain ⟨hres1, hres2⟩ := counts_restore cfg st domain hnn
      set st3 : ThrottleState :=
        { releaseST (admitST cfg st domain) domain with
          now := (admitST cfg st domain).now + max (calculateBackoff cfg attempt) 0
          waits := (admitST cfg st domain).waits ++ [calculateBackoff cfg attempt] } with hst3
      have hact3 : ∀ d, activeOf st3 d = activeOf st d := fun d => hres2 d
      have hg3 : st3.globalActive < cfg.globalConcurrency := by
        have : st3.globalActive = st.globalActive := hres1
        omega
      have hk3 : canRequestDomain cfg st3 domain = true := by
        have h := hact3 domain
        simp only [canRequestDomain, h]
        simpa [canRequestDomain] using hk
      have hnn3 : ∀ d, 0 ≤ activeOf st3 d := by
        intro d
        rw [hact3 d]
        exact hnn d
      obtain ⟨st', heq', hw⟩ := ih (attempt + 1) st3 (by omega) (by omega) hg3 hk3 hnn3
      refine ⟨st', heq', ?_⟩
      have hw3 : st3.waits = st.waits ++ [calculateBackoff cfg attempt] := by
        show (admitST cfg st domain).waits ++ [calculateBackoff cfg attempt] = _
        rw [admitST_waits]
      rw [hw, hw3, List.append_assoc]
      have hn' : n - attempt = (n - (attempt + 1)) + 1 := by omega
      rw [hn', List.range'_succ]
      simp

/-- A unit of work that fails retryably on every attempt up to `maxRetries`:
`execute` propagates the attempt-`maxRetries` error unchanged, after backoff
sleeps at attempts `attempt, …, maxRetries-1`. -/
theorem executeFuel_retry_err {α : Type} (cfg : RLConfig) (fn : Nat → Except String α)
    (domain : String) (errs : Nat → String) (mR : Nat)
    (hmr : cfg.maxRetries = (mR : Int))
    (hfail : ∀ i, i ≤ mR → fn i = Except.error (errs i) ∧ shouldRetry (errs i) = true) :
    ∀ (fuel : Nat), ∀ (attempt : Nat), ∀ (st : ThrottleState),
      attempt ≤ mR →
      mR + 1 ≤ fuel + attempt →
      st.globalActive < cfg.globalConcurrency →
      canRequestDomain cfg st domain = true →
      (∀ d, 0 ≤ activeOf st d) →
      ∃ st', executeFuel cfg fn domain fuel st attempt = some (Except.error (errs mR), st') ∧
        st'.waits = st.waits ++
          (List.range' attempt (mR - attempt)).map (fun k => calculateBackoff cfg k) := by
  intro fuel
  induction fuel with
  | zero =>
    intro attempt st ha hf _ _ _
    omega
  | succ fuel ih =>
    intro attempt st ha hf hg hk hnn
    have hcond : (decide (st.globalActive < cfg.globalConcurrency)
        && canRequestDomain cfg st domain) = true := by
      simp [hg, hk]
    simp only [executeFuel, hcond, if_true]
    by_cases heq : attempt = mR
    · subst heq
      obtain ⟨hfa, _⟩ := hfail attempt le_rfl
      have hstop : (decide ((attempt : Int) < cfg.maxRetries)
          && shouldRetry (errs attempt)) = false := by
        rw [hmr]
        simp
      simp only [hfa, hstop, Bool.false_eq_true, if_false]
      refine ⟨_, rfl, ?_⟩
      have : (releaseST (admitST cfg st domain) domain).waits
          = (admitST cfg st domain).waits := rfl
      rw [this, admitST_waits]
      simp
    · have haltn : attempt < mR := by omega
      obtain ⟨hfa, hsr⟩ := hfail attempt (le_of_lt haltn)
      have hlt : (attempt : Int) < cfg.maxRetries := by
        rw [hmr]
        exact_mod_cast haltn
      have hr : (decide ((attempt : Int) < cfg.maxRetries) && shouldRetry (errs attempt))
          = true := by simp [hlt, hsr]
      simp only [hfa, hr, if_true]
      obtain ⟨hres1, hres2⟩ := counts_restore cfg st domain hnn
      set st3 : ThrottleState :=
        { releaseST (admitST cfg st domain) domain with
          now := (admitST cfg st domain).now + max (calculateBackoff cfg attempt) 0
          waits := (admitST cfg st domain).waits ++ [calculateBackoff cfg attempt] } with hst3
      have hact3 : ∀ d, activeOf st3 d = activeOf st d := fun d => hres2 d
      have hg3 : st3.globalActive < cfg.globalConcurrency := by
        have : st3.globalActive = st.globalActive := hres1
        omega
      have hk3 : canRequestDomain cfg st3 domain = true := by
        have h := hact3 domain
        simp only [canRequestDomain, h]
        simpa [canRequestDomain] using hk
      have hnn3 : ∀ d, 0 ≤ activeOf st3 d := by
        intro d
        rw [hact3 d]
        exact hnn d
      obtain ⟨st', heq', hw⟩ := ih (attempt + 1) st3 (by omega) (by omega) hg3 hk3 hnn3
      refine ⟨st', heq', ?_⟩
      have hw3 : st3.waits = st.waits ++ [calculateBackoff cfg attempt] := by
        show (admitST cfg st domain).waits ++ [calculateBackoff cfg attempt] = _
        rw [admitST_waits]
      rw [hw, hw3, List.append_assoc]
      have hn' : mR - attempt = (mR - (attempt + 1)) + 1 := by omega
      rw [hn', List.range'_succ]
      simp

end RateLimiter

namespace RateLimiter

/-- Claim C1 (amended): retry behaviour of `RateLimiter.execute`.  Attempt 0
runs with no backoff wait; for a unit of work failing with a retryable error
exactly `n` times then succeeding, if `maxRetries ≥ n` the call succeeds after
`n` retries and the backoff wait before the retry with index `k` (0-indexed)
equals `requestDelay * backoffBase ^ k`; if `maxRetries < n` the final error
is propagated to the caller unchanged (the attempt count appears only in the
log line, it is not attached to the propagated error). -/
theorem execute_retry_spec {α : Type} (cfg : RLConfig) (mR : Nat)
    (hmr : cfg.maxRetries = (mR : Int))
    (fn : Nat → Except String α) (errs : Nat → String) (v : α) (n : Nat)
    (domain : String) (st : ThrottleState)
    (hg : st.globalActive < cfg.globalConcurrency)
    (hk : canRequestDomain cfg st domain = true)
    (hnn : ∀ d, 0 ≤ activeOf st d)
    (hfail : ∀ i, i < n → fn i = Except.error (errs i) ∧ shouldRetry (errs i) = true)
    (hsucc : fn n = Except.ok v) :
    (n ≤ mR → ∃ st', execute cfg fn domain st 0 = some (Except.ok v, st') ∧
      st'.waits = st.waits ++ (List.range n).map (fun k => calculateBackoff cfg k)) ∧
    (mR < n → ∃ st', execute cfg fn domain st 0 = some (Except.error (errs mR), st') ∧
      st'.waits = st.waits ++ (List.range mR).map (fun k => calculateBackoff cfg k)) := by
  have htn : cfg.maxRetries.toNat = mR := by
    rw [hmr]
    exact Int.toNat_natCast mR
  constructor
  · intro hle
    have hn : (n : Int) ≤ cfg.maxRetries := by
      rw [hmr]
      exact_mod_cast hle
    obtain ⟨st', h1, h2⟩ := executeFuel_retry_ok cfg fn domain errs v n hn hfail hsucc
      (cfg.maxRetries.toNat + 1) 0 st (by omega) (by omega) hg hk hnn
    refine ⟨st', h1, ?_⟩
    rw [h2, List.range_eq_range']
    simp
  · intro hgt
    have hfail' : ∀ i, i ≤ mR → fn i = Except.error (errs i) ∧ shouldRetry (errs i) = true :=
      fun i hi => hfail i (by omega)
    obtain ⟨st', h1, h2⟩ := executeFuel_retry_err cfg fn domain errs mR hmr hfail'
      (cfg.maxRetries.toNat + 1) 0 st (by omega) (by omega) hg hk hnn
    refine ⟨st', h1, ?_⟩
    rw [h2, List.range_eq_range']
    simp

/-- Witness for C1: with the default configuration (`maxRetries = 3`,
`requestDelay = 2000`, `backoffBase = 2`), a unit of work failing twice with
"timeout" then succeeding is retried twice, with backoff waits 2000 and 4000. -/
theorem execute_retry_spec_witness :
    ∃ st', execute (mkRateLimiter {})
        (fun i => if i < 2 then Except.error "timeout" else Except.ok "ok")
        "a.com" (initThrottle 1) 0 = some (Except.ok "ok", st') ∧
      st'.waits = [2000, 4000] := by
  obtain ⟨st', h1, h2⟩ := (execute_retry_spec (mkRateLimiter {}) 3 rfl
      (fun i => if i < 2 then Except.error "timeout" else Except.ok "ok")
      (fun _ => "timeout") "ok" 2 "a.com" (initThrottle 1)
      (by decide)
      (by decide)
      (fun d => by simp [activeOf, initThrottle, lookupAssoc])
      (fun i hi => by interval_cases i <;> exact ⟨rfl, by decide⟩)
      rfl).1 (by decide)
  exact ⟨st', h1, by rw [h2]; rfl⟩

/-- Claim C1 counterexample: no attempt count is attached to the propagated
error.  The same always-failing retryable unit of work run under
`maxRetries = 1` (one retry) and under the default `maxRetries = 3` (three
retries) surfaces the byte-identical original error value both times, so the
caller cannot recover any attempt count from it. -/
theorem execute_error_unchanged_cex :
    (execute (mkRateLimiter { maxRetries := some 1 })
        (fun _ => (Except.error "ETIMEDOUT" : Except String Nat)) "a.com"
        (initThrottle 1) 0).map Prod.fst = some (Except.error "ETIMEDOUT") ∧
    (execute (mkRateLimiter {})
        (fun _ => (Except.error "ETIMEDOUT" : Except String Nat)) "a.com"
        (initThrottle 1) 0).map Prod.fst = some (Except.error "ETIMEDOUT") :=
  ⟨rfl, rfl⟩

end RateLimiter

namespace RateLimiter

theorem jsOr_nonpos_iff (o : Option Int) (d : Int) (hd : 0 < d) :
    jsOr o d ≤ 0 ↔ ∃ v, o = some v ∧ v < 0 := by
  cases o with
  | none =>
    have h : jsOr none d = d := rfl
    rw [h]
    constructor
    · intro h2
      exact absurd h2 (by omega)
    · rintro ⟨v, hv, _⟩
      exact absurd hv (by simp)
  | some v =>
    have h : jsOr (some v) d = if v = 0 then d else v := rfl
    rw [h]
    by_cases hv : v = 0
    · subst hv
      have h0 : (if (0 : Int) = 0 then d else 0) = d := if_pos rfl
      rw [h0]
      constructor
      · intro h2
        exact absurd h2 (by omega)
      · rintro ⟨w, hw, hlt⟩
        have : (0 : Int) = w := by simpa using hw
        omega
    · simp only [if_neg hv]
      constructor
      · intro h2
        exact ⟨v, rfl, by omega⟩
      · rintro ⟨w, hw, hlt⟩
        have : v = w := by simpa using hw
        omega

/-- When an admission guard fails and no concurrent task can release a slot,
`execute` never returns: the `while` polling loops spin forever. -/
theorem execute_blocked {α : Type} (cfg : RLConfig) (fn : Nat → Except String α)
    (domain : String) (st : ThrottleState) (attempt : Nat)
    (h : (decide (st.globalActive < cfg.globalConcurrency)
      && canRequestDomain cfg st domain) = false) :
    execute cfg fn domain st attempt = none := by
  unfold execute
  simp only [executeFuel, h, Bool.false_eq_true, if_false]

/-- Claim C7 (amended): the `RateLimiter` constructor performs no validation
and raises nothing.  A configured limit of 0 is falsy and silently replaced by
its default (3 global, 1 per-domain) — so a constructed limit is non-positive
exactly when a negative value was configured; and with a non-positive
per-domain limit every admission check fails, so `execute` never admits
(a silent deadlock at admission time rather than a construction-time error). -/
theorem mkRateLimiter_no_validation (opts : RLOptions) :
    ((mkRateLimiter opts).perDomainConcurrency ≤ 0 ↔
      ∃ v, opts.perDomainConcurrency = some v ∧ v < 0) ∧
    ((mkRateLimiter opts).globalConcurrency ≤ 0 ↔
      ∃ v, opts.concurrency = some v ∧ v < 0) ∧
    (∀ (st : ThrottleState) (domain : String), 0 ≤ activeOf st domain →
      (mkRateLimiter opts).perDomainConcurrency ≤ 0 →
      canRequestDomain (mkRateLimiter opts) st domain = false) ∧
    (∀ (fn : Nat → Except String String) (st : ThrottleState) (domain : String) (attempt : Nat),
      0 ≤ activeOf st domain →
      (mkRateLimiter opts).perDomainConcurrency ≤ 0 →
      execute (mkRateLimiter opts) fn domain st attempt = none) := by
  have hcan : ∀ (st : ThrottleState) (domain : String), 0 ≤ activeOf st domain →
      (mkRateLimiter opts).perDomainConcurrency ≤ 0 →
      canRequestDomain (mkRateLimiter opts) st domain = false := by
    intro st domain hnn hle
    simp only [canRequestDomain, decide_eq_false_iff_not, not_lt]
    omega
  refine ⟨jsOr_nonpos_iff _ _ (by decide), jsOr_nonpos_iff _ _ (by decide), hcan, ?_⟩
  intro fn st domain attempt hnn hle
  apply execute_blocked
  rw [hcan st domain hnn hle]
  simp

/-- Witness for C7: the limiter constructed from `perDomainConcurrency: -1`
has a non-positive per-domain limit and admits nothing. -/
theorem mkRateLimiter_no_validation_witness :
    (mkRateLimiter { perDomainConcurrency := some (-1) }).perDomainConcurrency ≤ 0 ∧
    execute (mkRateLimiter { perDomainConcurrency := some (-1) })
      (fun _ => (Except.ok "x" : Except String String)) "a.com" (initThrottle 1) 0 = none := by
  constructor
  · exact (mkRateLimiter_no_validation { perDomainConcurrency := some (-1) }).1.mpr
      ⟨-1, rfl, by decide⟩
  · exact (mkRateLimiter_no_validation { perDomainConcurrency := some (-1) }).2.2.2
      _ (initThrottle 1) "a.com" 0 (by decide) (by decide)

/-- Claim C7 counterexample: construction with a limit ≤ 0 raises no error.
`concurrency: 0` is silently coerced to the default configuration, and
`perDomainConcurrency: -1` is silently accepted verbatim, after which
admission never succeeds — the silent deadlock the claim rules out. -/
theorem mkRateLimiter_accepts_invalid_cex :
    mkRateLimiter { concurrency := some 0 } = mkRateLimiter {} ∧
    (mkRateLimiter { perDomainConcurrency := some (-1) }).perDomainConcurrency = -1 ∧
    execute (mkRateLimiter { perDomainConcurrency := some (-1) })
      (fun _ => (Except.ok 0 : Except String Nat)) "a.com" (initThrottle 1) 0 = none :=
  ⟨rfl, rfl, rfl⟩

/-- Claim C3, evaluated at the failing input: under the default configuration
(`perDomainConcurrency = 1`), two concurrent `execute` callers for the same
domain can interleave so that both pass the admission checks before either
increments its counters — the checks (lines 88-95) and the increments (lines
101-103) are separated by the suspension at `await this.enforceDelay(domain)`
(line 98) — reaching a state whose active count for the domain is 2, above
the configured limit of 1. -/
theorem execute_race_exceeds_limit :
    Relation.ReflTransGen (ExecStep (mkRateLimiter {})) (initConc ["a.com", "a.com"])
      { tasks := [⟨"a.com", TaskPhase.running⟩, ⟨"a.com", TaskPhase.running⟩]
        globalActive := 2
        domainActive := [("a.com", 2)] } ∧
    (mkRateLimiter {}).perDomainConcurrency = 1 := by
  constructor
  · exact Relation.ReflTransGen.head
      (ExecStep.pass _ 0 ⟨"a.com", TaskPhase.waiting⟩ rfl rfl (by decide) (by decide))
      (Relation.ReflTransGen.head
        (ExecStep.pass _ 1 ⟨"a.com", TaskPhase.waiting⟩ rfl rfl (by decide) (by decide))
        (Relation.ReflTransGen.head
          (ExecStep.enter _ 0 ⟨"a.com", TaskPhase.passed⟩ rfl rfl)
          (Relation.ReflTransGen.head
            (ExecStep.enter _ 1 ⟨"a.com", TaskPhase.passed⟩ rfl rfl)
            Relation.ReflTransGen.refl)))
  · rfl

end RateLimiter

theorem mem_of_getLast?_eq {α : Type} (l : List α) (x : α) (h : l.getLast? = some x) :
    x ∈ l := by
  have hx : x ∈ l.getLast? := by rw [Option.mem_def, h]
  obtain ⟨hne, hxe⟩ := List.mem_getLast?_eq_getLast hx
  rw [hxe]
  exact List.getLast_mem hne

namespace RateLimiter

theorem startsOf_append (dom : String) (a b : List (String × Int)) :
    startsOf dom (a ++ b) = startsOf dom a ++ startsOf dom b := by
  simp [startsOf, List.filter_append]

theorem startsOf_single_self (dom : String) (s : Int) :
    startsOf dom [(dom, s)] = [s] := by
  simp [startsOf]

theorem startsOf_single_ne (dom domain : String) (s : Int) (h : dom ≠ domain) :
    startsOf dom [(domain, s)] = [] := by
  simp [startsOf, Ne.symm h]

/-- `SpacingInv` transfers along state changes that keep the admission log and
`lastRequestTime` and do not move the clock backwards. -/
theorem spacingInv_of_eq (cfg : RLConfig) (x y : ThrottleState) (inv : SpacingInv cfg x)
    (hs : y.starts = x.starts) (hl : y.lastRequestTime = x.lastRequestTime)
    (hn : x.now ≤ y.now) : SpacingInv cfg y := by
  constructor
  · have := inv.now_pos
    omega
  · intro dom t ht
    rw [hs] at ht
    obtain ⟨h1, h2⟩ := inv.mem_bounds dom t ht
    exact ⟨h1, by omega⟩
  · intro dom
    rw [hs]
    exact inv.spaced dom
  · intro dom
    rw [hl, hs]
    exact inv.last_eq dom

/-- The admission block preserves the spacing invariant: the new start is at
least `requestDelay` after the previous one (via `enforceDelay`), and
`lastRequestTime` is updated to it. -/
theorem spacingInv_admit (cfg : RLConfig) (st : ThrottleState) (domain : String)
    (inv : SpacingInv cfg st) : SpacingInv cfg (admitST cfg st domain) := by
  have hnE : st.now ≤ (enforceDelay cfg st domain).now := now_le_enforceDelay cfg st domain
  have hstarts := admitST_starts cfg st domain
  have hlast := admitST_lastRequestTime cfg st domain
  have hnow := admitST_now cfg st domain
  constructor
  · rw [hnow]
    have := inv.now_pos
    omega
  · intro dom t ht
    rw [hstarts, startsOf_append] at ht
    rcases List.mem_append.mp ht with h | h
    · obtain ⟨h1, h2⟩ := inv.mem_bounds dom t h
      refine ⟨h1, ?_⟩
      rw [hnow]
      omega
    · by_cases hdom : dom = domain
      · subst hdom
        rw [startsOf_single_self] at h
        simp only [List.mem_singleton] at h
        subst h
        have := inv.now_pos
        constructor
        · omega
        · rw [hnow]
      · rw [startsOf_single_ne _ _ _ hdom] at h
        simp at h
  · intro dom
    rw [hstarts, startsOf_append]
    by_cases hdom : dom = domain
    · subst hdom
      rw [startsOf_single_self, List.chain'_append]
      refine ⟨inv.spaced _, List.chain'_singleton _, ?_⟩
      intro x hx y hy
      simp only [List.head?_cons, Option.mem_some_iff] at hy
      subst hy
      have hlx : lookupAssoc st.lastRequestTime dom = some x := by
        rw [inv.last_eq dom]
        exact Option.mem_def.mp hx
      have hxmem : x ∈ startsOf dom st.starts :=
        mem_of_getLast?_eq _ _ (Option.mem_def.mp hx)
      have hxpos := (inv.mem_bounds dom x hxmem).1
      exact enforceDelay_spacing cfg st dom x hlx (by omega)
    · rw [startsOf_single_ne _ _ _ hdom]
      rw [List.append_nil]
      exact inv.spaced dom
  · intro dom
    by_cases hdom : dom = domain
    · subst hdom
      rw [hlast, lookupAssoc_setAssoc_self, hstarts, startsOf_append, startsOf_single_self,
        List.getLast?_concat]
    · rw [hlast, lookupAssoc_setAssoc_ne _ _ _ _ (fun h => hdom h.symm), hstarts,
        startsOf_append, startsOf_single_ne _ _ _ hdom, List.append_nil]
      exact inv.last_eq dom

end RateLimiter

namespace RateLimiter

/-- The sequential `execute` projection preserves the spacing invariant. -/
theorem executeFuel_spacing {α : Type} (cfg : RLConfig) (fn : Nat → Except String α)
    (domain : String) :
    ∀ (fuel : Nat) (st : ThrottleState) (attempt : Nat) (r : Except String α)
      (st' : ThrottleState),
      SpacingInv cfg st →
      executeFuel cfg fn domain fuel st attempt = some (r, st') →
      SpacingInv cfg st' := by
  intro fuel
  induction fuel with
  | zero =>
    intro st attempt r st' _ heq
    exact absurd heq (by simp [executeFuel])
  | succ fuel ih =>
    intro st attempt r st' inv heq
    cases hcond : (decide (st.globalActive < cfg.globalConcurrency)
        && canRequestDomain cfg st domain) with
    | false =>
      simp only [executeFuel, hcond, Bool.false_eq_true, if_false] at heq
      exact absurd heq (by simp)
    | true =>
      simp only [executeFuel, hcond, if_true] at heq
      have inv2 : SpacingInv cfg (admitST cfg st domain) := spacingInv_admit cfg st domain inv
      cases hfn : fn attempt with
      | ok v =>
        simp only [hfn] at heq
        injection heq with h
        injection h with h1 h2
        rw [← h2]
        exact spacingInv_of_eq cfg (admitST cfg st domain) _ inv2 rfl rfl (le_refl _)
      | error e =>
        simp only [hfn] at heq
        cases hr : (decide ((attempt : Int) < cfg.maxRetries) && shouldRetry e) with
        | false =>
          simp only [hr, Bool.false_eq_true, if_false] at heq
          injection heq with h
          injection h with h1 h2
          rw [← h2]
          exact spacingInv_of_eq cfg (admitST cfg st domain) _ inv2 rfl rfl (le_refl _)
        | true =>
          simp only [hr, if_true] at heq
          refine ih _ _ _ _ ?_ heq
          refine spacingInv_of_eq cfg (admitST cfg st domain) _ inv2 rfl rfl ?_
          have := le_max_right (calculateBackoff cfg attempt) (0 : Int)
          show (admitST cfg st domain).now ≤
            (admitST cfg st domain).now + max (calculateBackoff cfg attempt) 0
          omega

/-- The sequential driver preserves the spacing invariant. -/
theorem runSeq_spacing (cfg : RLConfig) :
    ∀ (reqs : List (String × (Nat → Except String String))) (st st' : ThrottleState),
      SpacingInv cfg st → runSeq cfg reqs st = some st' → SpacingInv cfg st' := by
  intro reqs
  induction reqs with
  | nil =>
    intro st st' inv heq
    simp only [runSeq] at heq
    injection heq with h
    rw [← h]
    exact inv
  | cons hd tl ih =>
    obtain ⟨domain, fn⟩ := hd
    intro st st' inv heq
    simp only [runSeq] at heq
    cases hex : execute cfg fn domain st 0 with
    | none =>
      rw [hex] at heq
      exact absurd heq (by simp)
    | some p =>
      obtain ⟨r, st2⟩ := p
      rw [hex] at heq
      exact ih st2 st' (executeFuel_spacing cfg fn domain _ st 0 r st2 inv hex) heq

theorem spacingInv_init (cfg : RLConfig) (t0 : Int) (h0 : 0 < t0) :
    SpacingInv cfg (initThrottle t0) := by
  constructor
  · exact h0
  · intro dom t ht
    simp [startsOf, initThrottle] at ht
  · intro dom
    simp [startsOf, initThrottle]
  · intro dom
    simp [startsOf, initThrottle, lookupAssoc]

/-- Claim C2 (amended): for every origin, the Domain Throttle admits a request
only when the elapsed time since that origin's last request start is at least
the configured `requestDelay`: over any sequential run started at a positive
clock, consecutive admitted start-times per domain are at least `requestDelay`
apart.  The policy crawl-delay does not participate: `enforceDelay` reads only
`cfg.requestDelay`, and nothing feeds `RobotsChecker.getCrawlDelay` into the
throttle (see the counterexample). -/
theorem throttle_spacing (cfg : RLConfig) (t0 : Int)
    (reqs : List (String × (Nat → Except String String))) (st' : ThrottleState)
    (h0 : 0 < t0)
    (hrun : runSeq cfg reqs (initThrottle t0) = some st') :
    ∀ domain, List.Chain' (fun a b => a + cfg.requestDelay ≤ b)
      (startsOf domain st'.starts) :=
  fun domain =>
    (runSeq_spacing cfg reqs (initThrottle t0) st' (spacingInv_init cfg t0 h0) hrun).spaced domain

/-- Witness for C2: two back-to-back requests to the same domain under the
default configuration are admitted at times 1 and 2001 — 2000 ms apart. -/
theorem throttle_spacing_witness :
    ∃ stF, runSeq (mkRateLimiter {})
        [("a.com", fun _ => Except.ok "x"), ("a.com", fun _ => Except.ok "y")]
        (initThrottle 1) = some stF ∧
      List.Chain' (fun a b => a + (mkRateLimiter {}).requestDelay ≤ b)
        (startsOf "a.com" stF.starts) := by
  refine ⟨releaseST (admitST (mkRateLimiter {})
      (releaseST (admitST (mkRateLimiter {}) (initThrottle 1) "a.com") "a.com") "a.com") "a.com",
    rfl, ?_⟩
  exact throttle_spacing (mkRateLimiter {}) 1
    [("a.com", fun _ => Except.ok "x"), ("a.com", fun _ => Except.ok "y")] _ (by decide) rfl
    "a.com"

/-- Claim C2 counterexample: the cached policy for the origin reports a
crawl-delay of 5000 ms (5 s), longer than the configured 2000 ms minimum, yet
two consecutive admitted starts for that origin are 2000 ms apart — the
crawl-delay does not override the configured minimum, because the throttle
never consults it. -/
theorem crawl_delay_not_enforced_cex :
    (RobotsChecker.getCrawlDelay
        { parseOrigin := fun _ => some "https://a.com"
          fetch := fun _ => RobotsChecker.FetchResult.resp 200 "User-agent: *\nCrawl-delay: 5" }
        ⟨[], 0⟩ "https://a.com" "*").1 = 5000 ∧
    ∃ stF, runSeq (mkRateLimiter {})
        [("a.com", fun _ => Except.ok "x"), ("a.com", fun _ => Except.ok "y")]
        (initThrottle 1) = some stF ∧
      startsOf "a.com" stF.starts = [1, 2001] ∧ (2001 : Int) - 1 < 5000 :=
  ⟨rfl, _, rfl, rfl, by decide⟩

end RateLimiter

namespace RobotsChecker

/-- Claim C6 (amended): `checkUrl(url)` returns a record `{allowed, reason}`
in which `allowed` is exactly the result of `isAllowed`, and `reason` is the
fixed string "Disallowed by robots.txt" whenever the URL is denied and the
empty string whenever it is allowed. -/
theorem checkUrl_reason_spec (env : RCEnv) (st : RCState) (url ua : String) :
    (checkUrl env st url ua).1.allowed = (isAllowed env st url ua).1 ∧
    (checkUrl env st url ua).1.reason =
      (if (isAllowed env st url ua).1 then "" else "Disallowed by robots.txt") :=
  ⟨rfl, rfl⟩

/-- Claim C6 counterexample: for a URL denied by its origin's robots.txt, the
reason is the fixed string "Disallowed by robots.txt" — not the
"Disallowed by policy" the claim states. -/
theorem checkUrl_reason_cex :
    (checkUrl
        { parseOrigin := fun _ => some "https://a.com"
          fetch := fun _ => FetchResult.resp 200 "User-agent: *\nDisallow: /" }
        ⟨[], 0⟩ "https://a.com/x" "*").1
      = { allowed := false, reason := "Disallowed by robots.txt" } ∧
    "Disallowed by robots.txt" ≠ "Disallowed by policy" :=
  ⟨rfl, by decide⟩

/-- Claim C9: for every origin, calling `getRobotsParser` twice without
`clearCache` in between issues at most one underlying robots.txt fetch — the
second call returns the cached parser and leaves the state untouched — and
`clearCache` empties the cache. -/
theorem policy_cache_idempotent (env : RCEnv) (st : RCState) (domain : String) :
    (getRobotsParser env ((getRobotsParser env st domain).2) domain).1
      = (getRobotsParser env st domain).1 ∧
    (getRobotsParser env ((getRobotsParser env st domain).2) domain).2
      = (getRobotsParser env st domain).2 ∧
    ((getRobotsParser env st domain).2).fetchCount ≤ st.fetchCount + 1 ∧
    (clearCache st).robotsCache = [] := by
  cases h : lookupAssoc st.robotsCache domain with
  | some p =>
    refine ⟨?_, ?_, ?_, rfl⟩
    · simp [getRobotsParser, h]
    · simp [getRobotsParser, h]
    · simp only [getRobotsParser, h]
      omega
  | none =>
    have h2 : lookupAssoc (st.robotsCache ++
        [(domain, robotsParserFn (domain ++ "/robots.txt") (fetchRobotsTxt env domain))]) domain
        = some (robotsParserFn (domain ++ "/robots.txt") (fetchRobotsTxt env domain)) := by
      rw [lookupAssoc_append_of_none _ _ _ h]
      simp [lookupAssoc]
    refine ⟨?_, ?_, ?_, rfl⟩
    · simp [getRobotsParser, h, h2]
    · simp [getRobotsParser, h, h2]
    · simp only [getRobotsParser, h]
      omega

end RobotsChecker

namespace RobotsChecker

/-- Claim C8: on a policy-cache miss, a robots.txt fetch returning any HTTP
status other than 200 (4xx including 404) or failing with a network error,
timeout or HTTP 5xx yields the empty allow-all policy for that origin, so
`isAllowed` subsequently returns true for every URL of that origin. -/
theorem fetch_failure_allows_all (env : RCEnv) (st : RCState) (domain url ua : String)
    (horig : env.parseOrigin url = some domain)
    (hmiss : lookupAssoc st.robotsCache domain = none)
    (hfail : ∀ body, env.fetch (domain ++ "/robots.txt") ≠ FetchResult.resp 200 body) :
    fetchRobotsTxt env domain = "" ∧
    ((getRobotsParser env st domain).1).isAllowedE url ua = Except.ok true ∧
    (isAllowed env st url ua).1 = true := by
  have hftx : fetchRobotsTxt env domain = "" := by
    unfold fetchRobotsTxt axiosGetRobots
    cases hf : env.fetch (domain ++ "/robots.txt") with
    | resp s body =>
      by_cases h5 : s < 500
      · have hs : s ≠ 200 := by
          intro h200
          exact hfail body (by rw [hf, h200])
        simp [if_pos h5, hs]
      · simp [if_neg h5]
    | netErr m => simp
  have hparser : (getRobotsParser env st domain).1
      = robotsParserFn (domain ++ "/robots.txt") "" := by
    simp [getRobotsParser, hmiss, hftx]
  have hallow : (robotsParserFn (domain ++ "/robots.txt") "").isAllowedE url ua
      = Except.ok true := rfl
  refine ⟨hftx, by rw [hparser]; exact hallow, ?_⟩
  unfold isAllowed getDomain
  rw [horig]
  simp only [hparser, hallow]

/-- Witness for C8: a 404 robots.txt response on a cache miss leaves every
URL of the origin allowed. -/
theorem fetch_failure_allows_all_witness :
    (isAllowed
        { parseOrigin := fun _ => some "https://a.com"
          fetch := fun _ => FetchResult.resp 404 "nope" }
        ⟨[], 0⟩ "https://a.com/x" "*").1 = true :=
  (fetch_failure_allows_all
    { parseOrigin := fun _ => some "https://a.com"
      fetch := fun _ => FetchResult.resp 404 "nope" }
    ⟨[], 0⟩ "https://a.com" "https://a.com/x" "*" rfl rfl
    (fun body h => by
      injection h with h1 _
      exact absurd h1 (by decide))).2.2

/-- Claim C10: the policy checker fails closed at its public interface.  A URL
from which no origin can be derived (the URL parser throws) makes `isAllowed`
return false with the state untouched, and `checkUrl` reports it disallowed;
and whenever the cached parser's evaluation throws, `isAllowed` returns false
— in contrast to the conservative-allow degradation applied to policy-fetch
failures. -/
theorem robots_check_fails_closed (env : RCEnv) (st : RCState) (url ua : String) :
    (env.parseOrigin url = none →
      isAllowed env st url ua = (false, st) ∧
      (checkUrl env st url ua).1 = { allowed := false, reason := "Disallowed by robots.txt" }) ∧
    (∀ domain p e, env.parseOrigin url = some domain →
      lookupAssoc st.robotsCache domain = some p →
      p.isAllowedE url ua = Except.error e →
      (isAllowed env st url ua).1 = false ∧
      (checkUrl env st url ua).1 = { allowed := false, reason := "Disallowed by robots.txt" }) := by
  constructor
  · intro h
    have h1 : isAllowed env st url ua = (false, st) := by
      unfold isAllowed getDomain
      rw [h]
    refine ⟨h1, ?_⟩
    simp [checkUrl, h1]
  · intro domain p e hd hp he
    have hparser : getRobotsParser env st domain = (p, st) := by
      simp [getRobotsParser, hp]
    have h1 : isAllowed env st url ua = (false, st) := by
      unfold isAllowed getDomain
      rw [hd]
      simp only [hparser, he]
    refine ⟨by rw [h1], ?_⟩
    simp [checkUrl, h1]

/-- Witness for C10: an unparsable URL is rejected, and a cached parser whose
evaluation throws also leads to rejection. -/
theorem robots_check_fails_closed_witness :
    (isAllowed { parseOrigin := fun _ => none, fetch := fun _ => FetchResult.netErr "x" }
        ⟨[], 0⟩ "not a url" "*").1 = false ∧
    (isAllowed { parseOrigin := fun _ => some "https://a.com", fetch := fun _ => FetchResult.netErr "x" }
        ⟨[("https://a.com",
            { sourceUrl := "u", raw := ""
              isAllowedE := fun _ _ => Except.error "boom"
              getCrawlDelayF := fun _ => none })], 0⟩
        "https://a.com/x" "*").1 = false := by
  constructor
  · have h := (robots_check_fails_closed
      { parseOrigin := fun _ => none, fetch := fun _ => FetchResult.netErr "x" }
      ⟨[], 0⟩ "not a url" "*").1 rfl
    rw [h.1]
  · exact ((robots_check_fails_closed
      { parseOrigin := fun _ => some "https://a.com", fetch := fun _ => FetchResult.netErr "x" }
      ⟨[("https://a.com",
          { sourceUrl := "u", raw := ""
            isAllowedE := fun _ _ => Except.error "boom"
            getCrawlDelayF := fun _ => none })], 0⟩
      "https://a.com/x" "*").2 "https://a.com"
      { sourceUrl := "u", raw := ""
        isAllowedE := fun _ _ => Except.error "boom"
        getCrawlDelayF := fun _ => none } "boom" rfl rfl rfl).1

end RobotsChecker

namespace Scraper

/-- Claim C5: for every URL whose origin policy denies it, `scrapeUrl`
produces the skipped outcome carrying the checker's denial reason, without
running the unit of work (no `performFetch`) and without touching the rate
limiter state — no admission, no counter increment, no start or call
recorded (the returned throttle state is exactly the input one). -/
theorem scrapeUrl_denied_short_circuit (cfg : RateLimiter.RLConfig) (env : SchedEnv)
    (st : SchedState) (url : String)
    (hden : (RobotsChecker.checkUrl env.rc st.rc url "*").1.allowed = false) :
    scrapeUrl cfg env st url = some
      ({ url := url, status := "skipped"
         reason := (RobotsChecker.checkUrl env.rc st.rc url "*").1.reason, data := none },
       ⟨(RobotsChecker.checkUrl env.rc st.rc url "*").2, st.throttle⟩) := by
  unfold scrapeUrl
  simp [hden]

/-- Witness for C5: a URL denied by a cached policy is skipped with the
checker's reason and the throttle state is returned unchanged. -/
theorem scrapeUrl_denied_short_circuit_witness :
    (scrapeUrl (RateLimiter.mkRateLimiter {})
        { rc := { parseOrigin := fun _ => some "https://a.com"
                  fetch := fun _ => RobotsChecker.FetchResult.netErr "x" }
          hostOf := fun _ => some "a.com"
          runAttempt := fun u _ => Except.ok { url := u, status := "success", reason := "", data := some "d" } }
        ⟨⟨[("https://a.com",
            { sourceUrl := "u", raw := ""
              isAllowedE := fun _ _ => Except.ok false
              getCrawlDelayF := fun _ => none })], 0⟩,
          RateLimiter.initThrottle 1⟩
        "https://a.com/x").map (fun p => (p.1, p.2.throttle)) =
      some ({ url := "https://a.com/x", status := "skipped"
              reason := "Disallowed by robots.txt", data := none },
        RateLimiter.initThrottle 1) := by
  rw [scrapeUrl_denied_short_circuit (RateLimiter.mkRateLimiter {})
    { rc := { parseOrigin := fun _ => some "https://a.com"
              fetch := fun _ => RobotsChecker.FetchResult.netErr "x" }
      hostOf := fun _ => some "a.com"
      runAttempt := fun u _ => Except.ok { url := u, status := "success", reason := "", data := some "d" } }
    ⟨⟨[("https://a.com",
        { sourceUrl := "u", raw := ""
          isAllowedE := fun _ _ => Except.ok false
          getCrawlDelayF := fun _ => none })], 0⟩,
      RateLimiter.initThrottle 1⟩
    "https://a.com/x" rfl]
  rfl

end Scraper

namespace Scraper

/-- `scrapeUrl` always returns an outcome whose `url` field is the processed
URL, and restores the throttle counters, whenever the admission guards hold at
entry and the unit of work tags its outcomes with the URL (as the inner
function of `Scraper.scrapeUrl` does by construction). -/
theorem scrapeUrl_some (cfg : RateLimiter.RLConfig) (env : SchedEnv) (st : SchedState)
    (url : String)
    (hg : st.throttle.globalActive < cfg.globalConcurrency)
    (hk : ∀ d, RateLimiter.canRequestDomain cfg st.throttle d = true)
    (hnn : ∀ d, 0 ≤ RateLimiter.activeOf st.throttle d)
    (hurl : ∀ u a o, env.runAttempt u a = Except.ok o → o.url = u) :
    ∃ o st', scrapeUrl cfg env st url = some (o, st') ∧
      o.url = url ∧
      st'.throttle.globalActive = st.throttle.globalActive ∧
      (∀ d, RateLimiter.activeOf st'.throttle d = RateLimiter.activeOf st.throttle d) := by
  cases hchk : (RobotsChecker.checkUrl env.rc st.rc url "*").1.allowed with
  | false =>
    refine ⟨{ url := url, status := "skipped"
              reason := (RobotsChecker.checkUrl env.rc st.rc url "*").1.reason, data := none },
      ⟨(RobotsChecker.checkUrl env.rc st.rc url "*").2, st.throttle⟩, ?_, rfl, rfl, fun d => rfl⟩
    unfold scrapeUrl
    simp [hchk]
  | true =>
    obtain ⟨r, t', heq, hga, hao, hok⟩ := RateLimiter.executeFuel_total cfg
      (env.runAttempt url) (RateLimiter.getDomain env.hostOf url)
      (cfg.maxRetries.toNat + 1) st.throttle 0 hg (hk _) hnn (by omega) (by omega)
    have heq2 : RateLimiter.execute cfg (env.runAttempt url)
        (RateLimiter.getDomain env.hostOf url) st.throttle 0 = some (r, t') := heq
    cases r with
    | ok o =>
      refine ⟨o, ⟨(RobotsChecker.checkUrl env.rc st.rc url "*").2, t'⟩, ?_, ?_, hga, hao⟩
      · unfold scrapeUrl
        simp [hchk, heq2]
      · obtain ⟨a, ha⟩ := hok o rfl
        exact hurl url a o ha
    | error e =>
      refine ⟨{ url := url, status := "error", reason := e, data := none },
        ⟨(RobotsChecker.checkUrl env.rc st.rc url "*").2, t'⟩, ?_, rfl, hga, hao⟩
      unfold scrapeUrl
      simp [hchk, heq2]

/-- `scrapeUrls` produces exactly one outcome per URL, positionally aligned
with the input, whenever the admission guards hold initially. -/
theorem scrapeUrls_spec (cfg : RateLimiter.RLConfig) (env : SchedEnv)
    (hurl : ∀ u a o, env.runAttempt u a = Except.ok o → o.url = u) :
    ∀ (urls : List String) (st : SchedState),
      st.throttle.globalActive < cfg.globalConcurrency →
      (∀ d, RateLimiter.canRequestDomain cfg st.throttle d = true) →
      (∀ d, 0 ≤ RateLimiter.activeOf st.throttle d) →
      ∃ outs st', scrapeUrls cfg env st urls = some (outs, st') ∧
        outs.length = urls.length ∧
        (∀ i (h1 : i < outs.length) (h2 : i < urls.length),
          (outs.get ⟨i, h1⟩).url = urls.get ⟨i, h2⟩) := by
  intro urls
  induction urls with
  | nil =>
    intro st _ _ _
    exact ⟨[], st, rfl, rfl, fun i h1 h2 => absurd h1 (by simp)⟩
  | cons u rest ih =>
    intro st hg hk hnn
    obtain ⟨o, st1, heq, hourl, hga, hao⟩ := scrapeUrl_some cfg env st u hg hk hnn hurl
    have hk1 : ∀ d, RateLimiter.canRequestDomain cfg st1.throttle d = true := by
      intro d
      have h := hk d
      simp only [RateLimiter.canRequestDomain, hao d]
      simpa [RateLimiter.canRequestDomain] using h
    have hnn1 : ∀ d, 0 ≤ RateLimiter.activeOf st1.throttle d := by
      intro d
      rw [hao d]
      exact hnn d
    obtain ⟨outs, st2, heq2, hlen, hcorr⟩ := ih st1 (by rw [hga]; exact hg) hk1 hnn1
    refine ⟨o :: outs, st2, ?_, by simp [hlen], ?_⟩
    · simp only [scrapeUrls, heq, heq2]
    · intro i h1 h2
      cases i with
      | zero => simpa using hourl
      | succ j =>
        simp only [List.get_cons_succ]
        exact hcorr j (by simpa using h1) (by simpa using h2)

/-- Claim C4: for every input sequence of URLs, `scrapeUrls` returns exactly
one terminal outcome per input URL, positionally in input order (the loop
awaits each URL before the next, so completion timing cannot reorder), and an
error propagated out of the rate limiter while processing one URL is captured
in that URL's outcome rather than aborting the batch. -/
theorem scrapeUrls_ordered_outcomes (cfg : RateLimiter.RLConfig) (env : SchedEnv)
    (st : SchedState) (urls : List String)
    (hg : st.throttle.globalActive < cfg.globalConcurrency)
    (hk : ∀ d, RateLimiter.canRequestDomain cfg st.throttle d = true)
    (hnn : ∀ d, 0 ≤ RateLimiter.activeOf st.throttle d)
    (hurl : ∀ u a o, env.runAttempt u a = Except.ok o → o.url = u) :
    (∃ outs st', scrapeUrls cfg env st urls = some (outs, st') ∧
      outs.length = urls.length ∧
      (∀ i (h1 : i < outs.length) (h2 : i < urls.length),
        (outs.get ⟨i, h1⟩).url = urls.get ⟨i, h2⟩)) ∧
    (∀ (u : String) (stI : SchedState) (e : String) (t' : RateLimiter.ThrottleState),
      (RobotsChecker.checkUrl env.rc stI.rc u "*").1.allowed = true →
      RateLimiter.execute cfg (env.runAttempt u) (RateLimiter.getDomain env.hostOf u)
        stI.throttle 0 = some (Except.error e, t') →
      scrapeUrl cfg env stI u =
        some ({ url := u, status := "error", reason := e, data := none },
          ⟨(RobotsChecker.checkUrl env.rc stI.rc u "*").2, t'⟩)) := by
  refine ⟨scrapeUrls_spec cfg env hurl urls st hg hk hnn, ?_⟩
  intro u stI e t' hallow hexec
  unfold scrapeUrl
  simp [hallow, hexec]

end Scraper

namespace Scraper

/-- Witness for C4: a batch of two allowed URLs yields exactly two outcomes,
in input order. -/
theorem scrapeUrls_ordered_outcomes_witness :
    ∃ outs st', scrapeUrls (RateLimiter.mkRateLimiter {})
        { rc := { parseOrigin := fun _ => some "https://a.com"
                  fetch := fun _ => RobotsChecker.FetchResult.resp 404 "nope" }
          hostOf := fun _ => some "a.com"
          runAttempt := fun u _ =>
            Except.ok { url := u, status := "success", reason := "", data := some "d" } }
        ⟨⟨[], 0⟩, RateLimiter.initThrottle 1⟩
        ["https://a.com/1", "https://a.com/2"] = some (outs, st') ∧
      outs.length = 2 := by
  obtain ⟨⟨outs, st', heq, hlen, _⟩, _⟩ := scrapeUrls_ordered_outcomes
    (RateLimiter.mkRateLimiter {})
    { rc := { parseOrigin := fun _ => some "https://a.com"
              fetch := fun _ => RobotsChecker.FetchResult.resp 404 "nope" }
      hostOf := fun _ => some "a.com"
      runAttempt := fun u _ =>
        Except.ok { url := u, status := "success", reason := "", data := some "d" } }
    ⟨⟨[], 0⟩, RateLimiter.initThrottle 1⟩
    ["https://a.com/1", "https://a.com/2"]
    (by decide) (fun _ => rfl) (fun _ => le_refl 0)
    (fun u a o h => by injection h with h1; rw [← h1])
  exact ⟨outs, st', heq, hlen⟩

end Scraper
